import Mathlib

/-
Verification of the discovery / cache / input-decoding core of
control-samsung-tv.ts.

The TypeScript source is embedded shallowly:
- strings are modelled as Lean String values, with the character-level
  operations (split, trim, indexOf, regex scans) carried out on List Char;
- the JavaScript object used as a header bag and as the device cache is
  modelled as an association list with overwrite-in-place assignment,
  matching JS property-assignment semantics (existing key keeps its
  position, new key is appended);
- the fetch performed by the discovery handler is a parameter
  (String -> Option String): none models a thrown transport error caught
  by the try/catch, some doc models a successful text body;
- JSON.parse is a platform builtin; its outcome is modelled as
  Option JVal (none = parse error / unreadable file), and the cache-load
  logic operating on that outcome is embedded from the source;
- the 25ms setInterval poll of getSamsungDevices is modelled as a
  discrete tick sequence t = 25, 50, 75, ... with the collected-device
  count a function of elapsed time.
-/

/-! ## Character and list utilities (JS string primitives) -/

/-- The whitespace characters trimmed by JS String.prototype.trim and
matched by the regex class backslash-s (ASCII part plus NBSP, BOM and the
two Unicode line separators). -/
def jsWS (c : Char) : Bool :=
  c = ' ' || c = '\t' || c = '\n' || c = '\r' || c = '\x0b' || c = '\x0c' ||
  c = '\u00A0' || c = '\uFEFF' || c = '\u2028' || c = '\u2029'

/-- JS String.prototype.trim on a character list. -/
def jsTrim (l : List Char) : List Char :=
  ((l.dropWhile jsWS).reverse.dropWhile jsWS).reverse

/-- JS toLowerCase (ASCII range, as used on the ASCII header/tag text). -/
def lcList (l : List Char) : List Char := l.map Char.toLower

/-- JS toUpperCase (ASCII range, as used on the ASCII header keys). -/
def ucList (l : List Char) : List Char := l.map Char.toUpper

/-- JS String.prototype.includes: does pat occur as a contiguous substring? -/
def containsSub (pat : List Char) : List Char → Bool
  | [] => decide (pat = [])
  | c :: rest => pat.isPrefixOf (c :: rest) || containsSub pat rest

/-- JS String.prototype.split with a single-character separator:
keeps empty pieces, so a trailing separator yields a trailing empty piece. -/
def splitOnChar (sep : Char) : List Char → List (List Char)
  | [] => [[]]
  | c :: rest =>
    if c = sep then [] :: splitOnChar sep rest
    else
      match splitOnChar sep rest with
      | [] => [[c]]
      | l :: ls => (c :: l) :: ls

/-! ## Header parsing (getSamsungDevices, lines 63-70)

The JS object obj is an association list of (key, value); assignment
obj[key] = value overwrites the first entry with that key in place and
otherwise appends, exactly like JS property assignment. -/

/-- Split a line at its first colon: line.indexOf(a colon) plus the two
substring calls; none when the line has no colon (spos < 0). -/
def breakColon : List Char → Option (List Char × List Char)
  | [] => none
  | c :: rest =>
    if c = ':' then some ([], rest)
    else
      match breakColon rest with
      | none => none
      | some (k, v) => some (c :: k, v)

/-- JS property assignment obj[k] = v on an association list. -/
def setHeader : List (List Char × List Char) → List Char → List Char →
    List (List Char × List Char)
  | [], k, v => [(k, v)]
  | (k0, v0) :: rest, k, v =>
    if k0 = k then (k, v) :: rest else (k0, v0) :: setHeader rest k v

/-- JS property read obj[k] on an association list. -/
def lookupHeader : List (List Char × List Char) → List Char → Option (List Char)
  | [], _ => none
  | (k0, v0) :: rest, k => if k = k0 then some v0 else lookupHeader rest k

/-- One iteration of the header loop: skip a line with no colon, otherwise
store the trimmed, uppercased key with the trimmed value. -/
def processLine (obj : List (List Char × List Char)) (line : List Char) :
    List (List Char × List Char) :=
  match breakColon line with
  | none => obj
  | some (k, v) => setHeader obj (ucList (jsTrim k)) (jsTrim v)

/-- The header loop over response.split(a newline). -/
def parseHeaders (response : List Char) : List (List Char × List Char) :=
  (splitOnChar '\n' response).foldl processLine []

/-! ## friendlyName extraction (lines 76-84)

The regex over the fetched descriptor text, with the i flag on the two tag
literals, lazy content, and the dot metacharacter excluding line
terminators; the first match of matchAll is the leftmost full match. -/

def openTagL : List Char := "<friendlyname>".data

def closeTagL : List Char := "</friendlyname>".data

/-- Case-insensitive literal prefix test. -/
def ciPrefix (pat s : List Char) : Bool :=
  decide ((s.take pat.length).map Char.toLower = pat)

/-- JS regex line terminators, which the dot metacharacter cannot match. -/
def lineTerm (c : Char) : Bool :=
  c = '\n' || c = '\r' || c = '\u2028' || c = '\u2029'

/-- Lazy content scan: the shortest run of non-line-terminator characters
followed by the closing tag; none when no closing tag occurs before a line
terminator or the end of input. -/
def findCloseContent : List Char → Option (List Char)
  | [] => none
  | c :: rest =>
    if ciPrefix closeTagL (c :: rest) then some []
    else if lineTerm c then none
    else
      match findCloseContent rest with
      | none => none
      | some t => some (c :: t)

/-- Leftmost full match of the friendlyName regex: at each start position
the opening tag must match case-insensitively and a closing tag must follow
with no intervening line terminator; otherwise the scan moves one
character right. Returns the captured content of the first match. -/
def firstFriendlyName : List Char → Option (List Char)
  | [] => none
  | c :: rest =>
    if ciPrefix openTagL (c :: rest) then
      match findCloseContent ((c :: rest).drop openTagL.length) with
      | some content => some content
      | none => firstFriendlyName rest
    else firstFriendlyName rest

/-! ## MAC extraction (lines 86-89) -/

/-- The regex character class of hex digits and colon. -/
def macClass (c : Char) : Bool :=
  ('0' ≤ c && c ≤ '9') || ('a' ≤ c && c ≤ 'f') || ('A' ≤ c && c ≤ 'F') || c = ':'

/-- Match of the WAKEUP MAC regex anchored at the head of s: the literal
WAKEUP-colon, greedy whitespace, the literal MAC-equals, then a nonempty
maximal run of the class characters (the capture). -/
def matchMacAt (s : List Char) : Option (List Char) :=
  if "WAKEUP:".data.isPrefixOf s then
    let afterWs := (s.drop 7).dropWhile jsWS
    if "MAC=".data.isPrefixOf afterWs then
      let run := (afterWs.drop 4).takeWhile macClass
      if run = [] then none else some run
    else none
  else none

/-- First match of the WAKEUP MAC regex over the whole response
(String.prototype.match: leftmost match wins). -/
def findMac : List Char → Option (List Char)
  | [] => none
  | c :: rest =>
    match matchMacAt (c :: rest) with
    | some m => some m
    | none => findMac rest

/-! ## The discovery message handler (lines 59-94) -/

/-- The record pushed for an accepted reply. friendlyName is Option
because the JS variable can end up holding undefined (the matchAll chain
with optional access). -/
structure DeviceInfo where
  friendlyName : Option String
  ip : String
  mac : String
deriving DecidableEq, Repr

def sentinelMac : String := "00:00:00:00:00:00"

/-- The truthiness test if (obj.LOCATION): the LOCATION key must be
present with a nonempty value. -/
def locationOf (response : String) : Option String :=
  match lookupHeader (parseHeaders response.data) ("LOCATION".data) with
  | none => none
  | some loc => if loc = [] then none else some (String.mk loc)

/-- The message handler: none when the raw text lacks the Samsung marker
(no record is pushed), otherwise the record built from the fallback
address, the optional descriptor fetch, and the WAKEUP MAC token.
fetchText models the awaited fetch: none is a thrown error absorbed by
the try/catch (the previous friendlyName value survives), some doc is the
response body text. -/
def handleMessage (response addr : String) (fetchText : String → Option String) :
    Option DeviceInfo :=
  if containsSub ("Samsung".data) response.data then
    let friendly : Option String :=
      match locationOf response with
      | none => some addr
      | some loc =>
        match fetchText loc with
        | none => some addr
        | some doc => (firstFriendlyName doc.data).map (fun l => String.mk l)
    let mac : String :=
      match findMac response.data with
      | none => sentinelMac
      | some m => String.mk m
    some { friendlyName := friendly, ip := addr, mac := mac }
  else none

/-! ## Device cache (getCachedSamsungDevices, lines 111-137) -/

/-- JSON values, the possible results of JSON.parse. -/
inductive JVal where
  | jnull : JVal
  | jbool : Bool → JVal
  | jnum : Int → JVal
  | jstr : String → JVal
  | jarr : List JVal → JVal
  | jobj : List (String × JVal) → JVal

/-- The JS typeof test on a parsed value: typeof result is the string
object exactly for objects, arrays and null. -/
def typeofIsObject : JVal → Bool
  | JVal.jnull => true
  | JVal.jarr _ => true
  | JVal.jobj _ => true
  | _ => false

/-- Lines 121-126: result starts as the empty object, a successful parse
replaces it, a thrown parse/read error is swallowed, and the guard resets
result to the empty object only when typeof result is not the string
object. -/
def loadCacheValue (parseResult : Option JVal) : JVal :=
  match parseResult with
  | none => JVal.jobj []
  | some v => if typeofIsObject v then v else JVal.jobj []

/-- JS property assignment result[mac] = device on the cache mapping. -/
def setKey : List (String × DeviceInfo) → String → DeviceInfo →
    List (String × DeviceInfo)
  | [], k, v => [(k, v)]
  | (k0, v0) :: rest, k, v =>
    if k0 = k then (k, v) :: rest else (k0, v0) :: setKey rest k v

/-- JS property read on the cache mapping. -/
def lookupKey : List (String × DeviceInfo) → String → Option DeviceInfo
  | [], _ => none
  | (k0, v0) :: rest, k => if k = k0 then some v0 else lookupKey rest k

/-- Lines 130-132: for each freshly discovered device, in discovery
insertion order, result[device.mac] = device. -/
def mergeDevices (cache : List (String × DeviceInfo)) (fresh : List DeviceInfo) :
    List (String × DeviceInfo) :=
  fresh.foldl (fun acc d => setKey acc d.mac d) cache

/-- The last record of the fresh list carrying the given MAC, if any. -/
def lastWithMac : List DeviceInfo → String → Option DeviceInfo
  | [], _ => none
  | d :: rest, k =>
    match lastWithMac rest k with
    | some e => some e
    | none => if d.mac = k then some d else none

/-! ## Spec-side comparator for C9 -/

def isHexDigit (c : Char) : Bool :=
  ('0' ≤ c && c ≤ '9') || ('a' ≤ c && c ≤ 'f') || ('A' ≤ c && c ≤ 'F')

/-- Modelled from the spec: a canonical colon-separated hex MAC form, the
weakest reasonable reading of the invariant mac is normalized to a
canonical colon-separated hex form — six groups of two hex digits
separated by colons. Used only to compare the code behaviour with the
wording of the spec. -/
def isCanonicalMac (s : String) : Bool :=
  let parts := splitOnChar ':' s.data
  decide (parts.length = 6) &&
    parts.all (fun p => decide (p.length = 2) && p.all isHexDigit)

/-! ## Input decoder (main, lines 185-231) -/

inductive KeyCode where
  | KEY_0 | KEY_1 | KEY_2 | KEY_3 | KEY_4 | KEY_5 | KEY_6 | KEY_7 | KEY_8 | KEY_9
  | KEY_UP | KEY_DOWN | KEY_RIGHT | KEY_LEFT
  | KEY_BACK_MHP | KEY_HOME | KEY_ENTER | KEY_PLAY
  | KEY_VOLUP | KEY_VOLDOWN | KEY_CHUP | KEY_CHDOWN
deriving DecidableEq, Repr

/-- What one iteration of the key loop does: dispatch one remote key,
send the power key then exit, exit without any device command, or fall
into the default branch which dispatches nothing. -/
inductive LoopAction where
  | dispatch : KeyCode → LoopAction
  | powerOffQuit : LoopAction
  | forceQuit : LoopAction
  | unmapped : LoopAction
deriving DecidableEq, Repr

/-- One read of up to 3 bytes: the slice of the buffer actually read,
with NUL padding stripped, interpreted as text. -/
def frameKey (bytes : List Char) : String :=
  String.mk (bytes.filter (fun c => c ≠ '\x00'))

/-- The switch statement of the key loop. -/
def decodeKey (key : String) : LoopAction :=
  match key with
  | "0" => LoopAction.dispatch KeyCode.KEY_0
  | "1" => LoopAction.dispatch KeyCode.KEY_1
  | "2" => LoopAction.dispatch KeyCode.KEY_2
  | "3" => LoopAction.dispatch KeyCode.KEY_3
  | "4" => LoopAction.dispatch KeyCode.KEY_4
  | "5" => LoopAction.dispatch KeyCode.KEY_5
  | "6" => LoopAction.dispatch KeyCode.KEY_6
  | "7" => LoopAction.dispatch KeyCode.KEY_7
  | "8" => LoopAction.dispatch KeyCode.KEY_8
  | "9" => LoopAction.dispatch KeyCode.KEY_9
  | "\x1b[A" => LoopAction.dispatch KeyCode.KEY_UP
  | "\x1b[B" => LoopAction.dispatch KeyCode.KEY_DOWN
  | "\x1b[C" => LoopAction.dispatch KeyCode.KEY_RIGHT
  | "\x1b[D" => LoopAction.dispatch KeyCode.KEY_LEFT
  | "\x7f" => LoopAction.dispatch KeyCode.KEY_BACK_MHP
  | "\x1b" => LoopAction.dispatch KeyCode.KEY_HOME
  | "\r" => LoopAction.dispatch KeyCode.KEY_ENTER
  | "p" => LoopAction.dispatch KeyCode.KEY_PLAY
  | "+" => LoopAction.dispatch KeyCode.KEY_VOLUP
  | "-" => LoopAction.dispatch KeyCode.KEY_VOLDOWN
  | "w" => LoopAction.dispatch KeyCode.KEY_CHUP
  | "s" => LoopAction.dispatch KeyCode.KEY_CHDOWN
  | "q" => LoopAction.powerOffQuit
  | "\x03" => LoopAction.forceQuit
  | "f" => LoopAction.forceQuit
  | _ => LoopAction.unmapped

/-! ## Discovery timing (lines 98-107)

The setInterval poll is modelled as ticks k = 1, 2, 3, ... at elapsed
times 25k ms; devCount t is the number of devices collected by elapsed
time t. The interval body resolves at the first tick where a device has
been collected or the elapsed time has reached the window. -/

def tickMs : Nat := 25

/-- The condition checked by the interval body at tick k. -/
def stopCond (windowMs : Nat) (devCount : Nat → Nat) (k : Nat) : Bool :=
  decide (0 < devCount (tickMs * k)) || decide (windowMs ≤ tickMs * k)

/-- The first tick at or after k at which the interval body resolves. -/
def firstStopTick (windowMs : Nat) (devCount : Nat → Nat) (k : Nat) : Nat :=
  if stopCond windowMs devCount k then k
  else firstStopTick windowMs devCount (k + 1)
termination_by windowMs - tickMs * k
decreasing_by
  simp [stopCond, tickMs] at *
  omega

/-- The elapsed time at which the discovery promise resolves. -/
def resolveTimeMs (windowMs : Nat) (devCount : Nat → Nat) : Nat :=
  tickMs * firstStopTick windowMs devCount 1

/-- The device count induced by a time-indexed collected-device list. -/
def devCountOf (devicesAt : Nat → List DeviceInfo) : Nat → Nat :=
  fun t => (devicesAt t).length

/-- The list the promise resolves with: the devices collected at the
resolve time. -/
def resolvedDevices (windowMs : Nat) (devicesAt : Nat → List DeviceInfo) :
    List DeviceInfo :=
  devicesAt (resolveTimeMs windowMs (devCountOf devicesAt))

/-! ## Concrete records used by examples and witnesses -/

def devA1 : DeviceInfo := { friendlyName := some "tv", ip := "1", mac := "A" }

def devA2 : DeviceInfo := { friendlyName := some "tv", ip := "2", mac := "A" }

def devB0 : DeviceInfo := { friendlyName := some "other", ip := "3", mac := "B" }

def devEx : DeviceInfo :=
  { friendlyName := some "10.0.0.7", ip := "10.0.0.7", mac := "AA:BB:CC:DD:EE:FF" }

/-! ## Association-list lemmas for the cache merge -/

theorem lookupKey_setKey (m : List (String × DeviceInfo)) (k : String)
    (v : DeviceInfo) (q : String) :
    lookupKey (setKey m k v) q = if q = k then some v else lookupKey m q := by
  induction m with
  | nil => simp [setKey, lookupKey]
  | cons p rest ih =>
    obtain ⟨k0, v0⟩ := p
    by_cases h : k0 = k
    · subst h
      by_cases hq : q = k0 <;> simp [setKey, lookupKey, hq]
    · by_cases hq : q = k0
      · have hqk : ¬ q = k := fun hh => h ((hq.symm.trans hh))
        simp [setKey, h, lookupKey, hq, hqk]
      · simp [setKey, h, lookupKey, hq, ih]

theorem lookupKey_mergeDevices (fresh : List DeviceInfo) :
    ∀ (cache : List (String × DeviceInfo)) (k : String),
    lookupKey (mergeDevices cache fresh) k =
      match lastWithMac fresh k with
      | some d => some d
      | none => lookupKey cache k := by
  induction fresh with
  | nil => intro cache k; simp [mergeDevices, lastWithMac]
  | cons d rest ih =>
    intro cache k
    have hm : mergeDevices cache (d :: rest) = mergeDevices (setKey cache d.mac d) rest := rfl
    rw [hm, ih]
    simp only [lastWithMac]
    cases hr : lastWithMac rest k with
    | some e => simp
    | none =>
      by_cases h : d.mac = k
      · subst h
        simp [lookupKey_setKey]
      · simp [lookupKey_setKey, h, Ne.symm h]

theorem keys_setKey (m : List (String × DeviceInfo)) (k : String) (v : DeviceInfo) :
    (setKey m k v).map Prod.fst =
      if k ∈ m.map Prod.fst then m.map Prod.fst else m.map Prod.fst ++ [k] := by
  induction m with
  | nil => simp [setKey]
  | cons p rest ih =>
    obtain ⟨k0, v0⟩ := p
    by_cases h : k0 = k
    · subst h
      simp [setKey]
    · by_cases hm : k ∈ rest.map Prod.fst <;>
        simp [setKey, h, ih, hm, Ne.symm h]

theorem mem_keys_setKey_self (m : List (String × DeviceInfo)) (k : String) (v : DeviceInfo) :
    k ∈ (setKey m k v).map Prod.fst := by
  rw [keys_setKey]
  split_ifs with h
  · exact h
  · simp

theorem mem_keys_setKey_of_mem (m : List (String × DeviceInfo)) (k : String)
    (v : DeviceInfo) (q : String) (h : q ∈ m.map Prod.fst) :
    q ∈ (setKey m k v).map Prod.fst := by
  rw [keys_setKey]
  split_ifs with hm
  · exact h
  · simp [h]

theorem keys_subset_mergeDevices (fresh : List DeviceInfo) :
    ∀ (cache : List (String × DeviceInfo)) (q : String),
    q ∈ cache.map Prod.fst → q ∈ (mergeDevices cache fresh).map Prod.fst := by
  induction fresh with
  | nil => intro cache q h; simpa [mergeDevices] using h
  | cons d rest ih =>
    intro cache q h
    exact ih (setKey cache d.mac d) q (mem_keys_setKey_of_mem cache d.mac d q h)

theorem mem_keys_mergeDevices (fresh : List DeviceInfo) :
    ∀ (cache : List (String × DeviceInfo)) (d : DeviceInfo),
    d ∈ fresh → d.mac ∈ (mergeDevices cache fresh).map Prod.fst := by
  induction fresh with
  | nil => intro cache d h; cases h
  | cons e rest ih =>
    intro cache d hd
    rcases List.mem_cons.mp hd with rfl | h
    · exact keys_subset_mergeDevices rest (setKey cache d.mac d) d.mac
        (mem_keys_setKey_self cache d.mac d)
    · exact ih (setKey cache e.mac e) d h

theorem keys_mergeDevices_of_subset (fresh : List DeviceInfo) :
    ∀ (cache : List (String × DeviceInfo)),
    (∀ d ∈ fresh, d.mac ∈ cache.map Prod.fst) →
    (mergeDevices cache fresh).map Prod.fst = cache.map Prod.fst := by
  induction fresh with
  | nil => intro cache _; rfl
  | cons d rest ih =>
    intro cache h
    have hd : d.mac ∈ cache.map Prod.fst := h d (by simp)
    have hk : (setKey cache d.mac d).map Prod.fst = cache.map Prod.fst := by
      rw [keys_setKey]; simp [hd]
    have hrest : ∀ e ∈ rest, e.mac ∈ (setKey cache d.mac d).map Prod.fst := by
      intro e he
      rw [hk]
      exact h e (by simp [he])
    calc (mergeDevices (setKey cache d.mac d) rest).map Prod.fst
        = (setKey cache d.mac d).map Prod.fst := ih (setKey cache d.mac d) hrest
      _ = cache.map Prod.fst := hk

theorem nodup_keys_setKey (m : List (String × DeviceInfo)) (k : String)
    (v : DeviceInfo) (h : (m.map Prod.fst).Nodup) :
    ((setKey m k v).map Prod.fst).Nodup := by
  rw [keys_setKey]
  split_ifs with hm
  · exact h
  · simp [List.nodup_append, h, hm]

theorem nodup_keys_mergeDevices (fresh : List DeviceInfo) :
    ∀ (cache : List (String × DeviceInfo)),
    (cache.map Prod.fst).Nodup → ((mergeDevices cache fresh).map Prod.fst).Nodup := by
  induction fresh with
  | nil => intro cache h; simpa [mergeDevices] using h
  | cons d rest ih =>
    intro cache h
    exact ih (setKey cache d.mac d) (nodup_keys_setKey cache d.mac d h)

theorem lookupKey_eq_none_of_not_mem (m : List (String × DeviceInfo)) (q : String)
    (h : q ∉ m.map Prod.fst) : lookupKey m q = none := by
  induction m with
  | nil => rfl
  | cons p rest ih =>
    obtain ⟨k0, v0⟩ := p
    simp only [List.map_cons, List.mem_cons, not_or] at h
    simp [lookupKey, h.1, ih h.2]

theorem assoc_ext (m1 : List (String × DeviceInfo)) :
    ∀ (m2 : List (String × DeviceInfo)),
    (m1.map Prod.fst).Nodup → m1.map Prod.fst = m2.map Prod.fst →
    (∀ q, lookupKey m1 q = lookupKey m2 q) → m1 = m2 := by
  induction m1 with
  | nil =>
    intro m2 _ hk _
    cases m2 with
    | nil => rfl
    | cons p2 rest2 => simp at hk
  | cons p rest ih =>
    intro m2 h1 hk hl
    obtain ⟨k, v⟩ := p
    cases m2 with
    | nil => simp at hk
    | cons p2 rest2 =>
      obtain ⟨k2, v2⟩ := p2
      simp only [List.map_cons] at hk
      have hk1 : k = k2 := (List.cons.injEq _ _ _ _ ▸ hk).1
      have hk2 : rest.map Prod.fst = rest2.map Prod.fst := (List.cons.injEq _ _ _ _ ▸ hk).2
      subst hk1
      have hv : v = v2 := by
        have hq := hl k
        simpa [lookupKey] using hq
      subst hv
      simp only [List.map_cons] at h1
      have hkn : k ∉ rest.map Prod.fst := (List.nodup_cons.mp h1).1
      have hnd : (rest.map Prod.fst).Nodup := (List.nodup_cons.mp h1).2
      have hkn2 : k ∉ rest2.map Prod.fst := hk2 ▸ hkn
      have hrest : rest = rest2 := by
        apply ih rest2 hnd hk2
        intro q
        by_cases hq : q = k
        · subst hq
          rw [lookupKey_eq_none_of_not_mem rest q hkn,
            lookupKey_eq_none_of_not_mem rest2 q hkn2]
        · have hq2 := hl q
          simpa [lookupKey, hq] using hq2
      rw [hrest]

theorem mem_setKey_of_ne (m : List (String × DeviceInfo)) (k : String) (v : DeviceInfo)
    (k2 : String) (v2 : DeviceInfo) (h : (k, v) ∈ m) (hne : k2 ≠ k) :
    (k, v) ∈ setKey m k2 v2 := by
  induction m with
  | nil => cases h
  | cons p rest ih =>
    obtain ⟨k0, v0⟩ := p
    rcases List.mem_cons.mp h with heq | hrest
    · have hk : k0 = k := congrArg Prod.fst heq.symm
      have h0 : ¬ k0 = k2 := fun hh => hne (hh ▸ hk)
      simp [setKey, h0, heq]
    · by_cases h0 : k0 = k2
      · simp [setKey, h0, hrest]
      · simp [setKey, h0, ih hrest]

theorem mem_mergeDevices_of_not_fresh (fresh : List DeviceInfo) :
    ∀ (cache : List (String × DeviceInfo)) (k : String) (v : DeviceInfo),
    (k, v) ∈ cache → (∀ d ∈ fresh, d.mac ≠ k) → (k, v) ∈ mergeDevices cache fresh := by
  induction fresh with
  | nil => intro cache k v h _; simpa [mergeDevices] using h
  | cons d rest ih =>
    intro cache k v h hf
    exact ih (setKey cache d.mac d) k v
      (mem_setKey_of_ne cache k v d.mac d h (hf d (by simp)))
      (fun e he => hf e (by simp [he]))

theorem lastWithMac_eq_none (fresh : List DeviceInfo) (k : String)
    (h : ∀ d ∈ fresh, d.mac ≠ k) : lastWithMac fresh k = none := by
  induction fresh with
  | nil => rfl
  | cons d rest ih =>
    have hd : d.mac ≠ k := h d (by simp)
    have hr : lastWithMac rest k = none := ih (fun e he => h e (by simp [he]))
    simp [lastWithMac, hr, hd]

/-! ## Claim theorems: cache load and merge -/

/-- C1: evaluation of the cache-load logic at the failing inputs. A parse
error (including the text not-json-brace, which JSON.parse rejects) does
load as the empty mapping, but a JSON array survives the typeof guard
unchanged — it is not the empty mapping — and so does JSON null; only
non-object primitives such as a JSON string are reset. This contradicts
the claim that any content that is not a JSON object loads as an empty
mapping. -/
theorem cache_load_array_not_reset :
    loadCacheValue (some (JVal.jarr [JVal.jnum 1])) = JVal.jarr [JVal.jnum 1] ∧
    JVal.jarr [JVal.jnum 1] ≠ JVal.jobj [] ∧
    loadCacheValue none = JVal.jobj [] ∧
    loadCacheValue (some JVal.jnull) = JVal.jnull ∧
    loadCacheValue (some (JVal.jstr "x")) = JVal.jobj [] := by
  refine ⟨rfl, ?_, rfl, rfl, rfl⟩
  intro hcontra
  exact JVal.noConfusion hcontra

/-- C3: merging writes each fresh record over the cache entry at its MAC
as a full-record overwrite, in discovery insertion order, so the lookup of
the merged mapping at any key is the last fresh record with that MAC and
otherwise the untouched cache entry; in particular a cache holding mac A
with ip 1 merged with a single fresh record mac A, ip 2 yields exactly the
fresh record. -/
theorem merge_overwrite_last_wins :
    (∀ (cache : List (String × DeviceInfo)) (fresh : List DeviceInfo) (k : String),
      lookupKey (mergeDevices cache fresh) k =
        match lastWithMac fresh k with
        | some d => some d
        | none => lookupKey cache k) ∧
    mergeDevices [("A", devA1)] [devA2] = [("A", devA2)] :=
  ⟨fun cache fresh k => lookupKey_mergeDevices fresh cache k, by decide⟩

/-- C4: merging the same fresh list into a cache twice yields the same
final mapping as merging it once (the cache, coming from a JSON object,
has no duplicate keys). -/
theorem merge_idempotent (cache : List (String × DeviceInfo)) (fresh : List DeviceInfo)
    (h : (cache.map Prod.fst).Nodup) :
    mergeDevices (mergeDevices cache fresh) fresh = mergeDevices cache fresh := by
  have hsub : ∀ d ∈ fresh, d.mac ∈ (mergeDevices cache fresh).map Prod.fst :=
    fun d hd => mem_keys_mergeDevices fresh cache d hd
  have hnd : ((mergeDevices cache fresh).map Prod.fst).Nodup :=
    nodup_keys_mergeDevices fresh cache h
  have hkeys : (mergeDevices (mergeDevices cache fresh) fresh).map Prod.fst =
      (mergeDevices cache fresh).map Prod.fst :=
    keys_mergeDevices_of_subset fresh (mergeDevices cache fresh) hsub
  apply assoc_ext _ _ (hkeys ▸ hnd) hkeys
  intro q
  rw [lookupKey_mergeDevices]
  cases hq : lastWithMac fresh q with
  | none => simp
  | some e =>
    rw [lookupKey_mergeDevices fresh cache q, hq]

theorem merge_idempotent_witness :
    mergeDevices (mergeDevices [("A", devA1)] [devA2]) [devA2] =
      mergeDevices [("A", devA1)] [devA2] :=
  merge_idempotent [("A", devA1)] [devA2] (by decide)

/-- C10: every cache entry whose key equals no fresh record's mac is
present and unchanged in the merged mapping. -/
theorem merge_frame_property (cache : List (String × DeviceInfo)) (fresh : List DeviceInfo)
    (k : String) (v : DeviceInfo)
    (hmem : (k, v) ∈ cache) (hfresh : ∀ d ∈ fresh, d.mac ≠ k) :
    (k, v) ∈ mergeDevices cache fresh ∧
    lookupKey (mergeDevices cache fresh) k = lookupKey cache k := by
  constructor
  · exact mem_mergeDevices_of_not_fresh fresh cache k v hmem hfresh
  · rw [lookupKey_mergeDevices, lastWithMac_eq_none fresh k hfresh]

theorem merge_frame_property_witness :
    ("B", devB0) ∈ mergeDevices [("B", devB0)] [devA2] ∧
    lookupKey (mergeDevices [("B", devB0)] [devA2]) "B" = lookupKey [("B", devB0)] "B" :=
  merge_frame_property [("B", devB0)] [devA2] "B" devB0 (by decide) (by decide)

/-! ## Claim theorems: discovery message handling -/

/-- C5: a datagram whose raw text does not contain the substring Samsung
produces no device record (the handler pushes nothing). -/
theorem non_samsung_ignored (resp addr : String) (f : String → Option String)
    (h : containsSub ("Samsung".data) resp.data = false) :
    handleMessage resp addr f = none := by
  simp [handleMessage, h]

theorem non_samsung_ignored_witness :
    containsSub ("Samsung".data) ("hello".data) = false ∧
    handleMessage "hello" "9.9.9.9" (fun _ => none) = none :=
  ⟨by decide, non_samsung_ignored "hello" "9.9.9.9" (fun _ => none) (by decide)⟩

/-- C2 counterexample: a Samsung reply with a LOCATION header whose fetch
succeeds but whose document contains no friendlyName element yields a
record whose friendlyName is the undefined value (none), not the
responder's source IP, contradicting the claim that the no-match case
keeps the IP fallback. -/
theorem friendlyName_no_match_counterexample :
    handleMessage "Samsung\r\nLOCATION: http://tv/desc\r\n" "10.0.0.5"
        (fun _ => some "<root></root>")
      = some { friendlyName := none, ip := "10.0.0.5", mac := sentinelMac } ∧
    (none : Option String) ≠ some "10.0.0.5" := by
  constructor
  · decide
  · intro hcontra
    exact Option.noConfusion hcontra

/-- C2 amended: failure never propagates (the handler always yields a
record for an accepted reply); when LOCATION is absent or empty, or when
the fetch throws, the friendlyName is the responder's IP fallback; when
the fetch succeeds, the friendlyName is the first case-insensitive
friendlyName element of the document — which is the undefined value, not
the IP, if no such element occurs. -/
theorem friendlyName_resolution_amended (resp addr : String)
    (f : String → Option String) (d : DeviceInfo)
    (h : handleMessage resp addr f = some d) :
    (locationOf resp = none → d.friendlyName = some addr) ∧
    (∀ loc, locationOf resp = some loc → f loc = none → d.friendlyName = some addr) ∧
    (∀ loc doc, locationOf resp = some loc → f loc = some doc →
      d.friendlyName = (firstFriendlyName doc.data).map (fun l => String.mk l)) := by
  cases hs : containsSub ("Samsung".data) resp.data with
  | false => simp [handleMessage, hs] at h
  | true =>
    simp only [handleMessage, hs, if_true] at h
    injection h with h
    subst h
    refine ⟨?_, ?_, ?_⟩
    · intro hloc; simp [hloc]
    · intro loc hloc hf; simp [hloc, hf]
    · intro loc doc hloc hf; simp [hloc, hf]

theorem friendlyName_resolution_amended_witness :
    (DeviceInfo.mk (some "1.2.3.4") "1.2.3.4" sentinelMac).friendlyName = some "1.2.3.4" :=
  (friendlyName_resolution_amended "Samsung" "1.2.3.4" (fun _ => none)
      (DeviceInfo.mk (some "1.2.3.4") "1.2.3.4" sentinelMac) (by decide)).1 (by decide)

/-- C9 counterexample: a reply whose WAKEUP token carries the single
character 0 yields a record whose mac is the verbatim text 0, which is
not a canonical colon-separated hex MAC form; the code applies no
normalization. -/
theorem mac_not_canonical_counterexample :
    handleMessage "Samsung WAKEUP: MAC=0" "1.1.1.1" (fun _ => none)
      = some { friendlyName := some "1.1.1.1", ip := "1.1.1.1", mac := "0" } ∧
    isCanonicalMac "0" = false := by
  constructor
  · decide
  · decide

theorem matchMacAt_shape (s : List Char) (m : List Char)
    (h : matchMacAt s = some m) : m ≠ [] ∧ m.all macClass = true := by
  simp only [matchMacAt] at h
  split_ifs at h with h1 h2 h3
  all_goals
    first
      | exact Option.noConfusion h
      | (injection h with h
         subst h
         exact ⟨h3, List.all_eq_true.mpr (fun x hx => List.mem_takeWhile_imp hx)⟩)

theorem findMac_shape (s : List Char) :
    ∀ m, findMac s = some m → m ≠ [] ∧ m.all macClass = true := by
  induction s with
  | nil => intro m h; cases h
  | cons c rest ih =>
    intro m h
    simp only [findMac] at h
    cases hm : matchMacAt (c :: rest) with
    | some m0 =>
      rw [hm] at h
      injection h with h
      subst h
      exact matchMacAt_shape (c :: rest) m0 hm
    | none =>
      rw [hm] at h
      exact ih m h

/-- C9 amended: the record's mac is the verbatim captured token of the
first WAKEUP MAC match — a nonempty run of hex digits and colons, with no
normalization, so not necessarily a canonical colon-separated form — and
is exactly the sentinel when no such token occurs in the reply. -/
theorem mac_from_wakeup_token_amended (resp addr : String)
    (f : String → Option String) (d : DeviceInfo)
    (h : handleMessage resp addr f = some d) :
    (d.mac = match findMac resp.data with
             | none => sentinelMac
             | some m => String.mk m) ∧
    (∀ m, findMac resp.data = some m → m ≠ [] ∧ m.all macClass = true) := by
  constructor
  · cases hs : containsSub ("Samsung".data) resp.data with
    | false => simp [handleMessage, hs] at h
    | true =>
      simp only [handleMessage, hs, if_true] at h
      injection h with h
      subst h
      rfl
  · intro m hm
    exact findMac_shape resp.data m hm

theorem mac_from_wakeup_token_amended_witness :
    (DeviceInfo.mk (some "2.2.2.2") "2.2.2.2" sentinelMac).mac
      = match findMac ("Samsung".data) with
        | none => sentinelMac
        | some m => String.mk m :=
  (mac_from_wakeup_token_amended "Samsung" "2.2.2.2" (fun _ => none)
      (DeviceInfo.mk (some "2.2.2.2") "2.2.2.2" sentinelMac) (by decide)).1

/-! ## Claim theorem: input decoder -/

/-- C6: the decoder maps each complete input frame per the decoding
table: the three-byte escape sequences decode to the arrow keys, a lone
escape byte decodes to home, q decodes to power-off-then-quit, and an
unlisted input such as z falls into the default branch which dispatches
no remote command. -/
theorem decoder_table_exact :
    decodeKey (frameKey ['\x1b', '[', 'A']) = LoopAction.dispatch KeyCode.KEY_UP ∧
    decodeKey (frameKey ['\x1b', '[', 'B']) = LoopAction.dispatch KeyCode.KEY_DOWN ∧
    decodeKey (frameKey ['\x1b', '[', 'C']) = LoopAction.dispatch KeyCode.KEY_RIGHT ∧
    decodeKey (frameKey ['\x1b', '[', 'D']) = LoopAction.dispatch KeyCode.KEY_LEFT ∧
    decodeKey (frameKey ['\x1b']) = LoopAction.dispatch KeyCode.KEY_HOME ∧
    decodeKey (frameKey ['q']) = LoopAction.powerOffQuit ∧
    decodeKey (frameKey ['z']) = LoopAction.unmapped := by
  decide

/-! ## Header parsing lemmas -/

theorem breakColon_eq_none (l : List Char) (h : ':' ∉ l) : breakColon l = none := by
  induction l with
  | nil => rfl
  | cons c rest ih =>
    simp only [List.mem_cons, not_or] at h
    simp [breakColon, Ne.symm h.1, ih h.2]

theorem breakColon_split (k v : List Char) (h : ':' ∉ k) :
    breakColon (k ++ ':' :: v) = some (k, v) := by
  induction k with
  | nil => simp [breakColon]
  | cons c rest ih =>
    simp only [List.mem_cons, not_or] at h
    simp [breakColon, Ne.symm h.1, ih h.2]

theorem processLine_skip (obj : List (List Char × List Char)) (l : List Char)
    (h : ':' ∉ l) : processLine obj l = obj := by
  simp [processLine, breakColon_eq_none l h]

theorem lookupHeader_setHeader (m : List (List Char × List Char))
    (k v q : List Char) :
    lookupHeader (setHeader m k v) q = if q = k then some v else lookupHeader m q := by
  induction m with
  | nil => simp [setHeader, lookupHeader]
  | cons p rest ih =>
    obtain ⟨k0, v0⟩ := p
    by_cases h : k0 = k
    · subst h
      by_cases hq : q = k0 <;> simp [setHeader, lookupHeader, hq]
    · by_cases hq : q = k0
      · have hqk : ¬ q = k := fun hh => h ((hq.symm.trans hh))
        simp [setHeader, h, lookupHeader, hq, hqk]
      · simp [setHeader, h, lookupHeader, hq, ih]

/-- C8: header parsing splits each line at its first colon, stores the
trimmed key uppercased (so keys are case-insensitive up to that
normalization) with the trimmed value, retrievable under the normalized
key; and a line with no colon is skipped without affecting the parsing of
the other lines. -/
theorem header_parsing_props :
    (∀ (obj : List (List Char × List Char)) (pre post : List (List Char)) (l : List Char),
      ':' ∉ l →
      (pre ++ l :: post).foldl processLine obj = (pre ++ post).foldl processLine obj) ∧
    (∀ (obj : List (List Char × List Char)) (k v : List Char), ':' ∉ k →
      processLine obj (k ++ ':' :: v) = setHeader obj (ucList (jsTrim k)) (jsTrim v)) ∧
    (∀ (obj : List (List Char × List Char)) (k1 k2 v : List Char),
      ':' ∉ k1 → ':' ∉ k2 → ucList (jsTrim k1) = ucList (jsTrim k2) →
      processLine obj (k1 ++ ':' :: v) = processLine obj (k2 ++ ':' :: v)) ∧
    (∀ (obj : List (List Char × List Char)) (k v : List Char), ':' ∉ k →
      lookupHeader (processLine obj (k ++ ':' :: v)) (ucList (jsTrim k)) =
        some (jsTrim v)) := by
  have hsplit : ∀ (obj : List (List Char × List Char)) (k v : List Char), ':' ∉ k →
      processLine obj (k ++ ':' :: v) = setHeader obj (ucList (jsTrim k)) (jsTrim v) := by
    intro obj k v h
    simp [processLine, breakColon_split k v h]
  refine ⟨?_, hsplit, ?_, ?_⟩
  · intro obj pre post l h
    rw [List.foldl_append, List.foldl_append, List.foldl_cons, processLine_skip _ _ h]
  · intro obj k1 k2 v h1 h2 hk
    rw [hsplit obj k1 v h1, hsplit obj k2 v h2, hk]
  · intro obj k v h
    rw [hsplit obj k v h, lookupHeader_setHeader]
    simp

theorem header_parsing_props_witness :
    ((["ST: x".data] ++ ["nocolonline".data] ++ ["A:B".data]).foldl processLine [] =
      (["ST: x".data] ++ ["A:B".data]).foldl processLine []) ∧
    processLine [] (" Location ".data ++ ':' :: " http://x ".data) =
      setHeader [] (ucList (jsTrim " Location ".data)) (jsTrim " http://x ".data) ∧
    processLine [] (" Location ".data ++ ':' :: " http://x ".data) =
      processLine [] ("LOCATION".data ++ ':' :: " http://x ".data) ∧
    lookupHeader (processLine [] (" Location ".data ++ ':' :: " http://x ".data))
        (ucList (jsTrim " Location ".data)) = some (jsTrim " http://x ".data) :=
  ⟨header_parsing_props.1 [] ["ST: x".data] ["A:B".data] ("nocolonline".data) (by decide),
   header_parsing_props.2.1 [] (" Location ".data) (" http://x ".data) (by decide),
   header_parsing_props.2.2.1 [] (" Location ".data) ("LOCATION".data) (" http://x ".data)
     (by decide) (by decide) (by decide),
   header_parsing_props.2.2.2 [] (" Location ".data) (" http://x ".data) (by decide)⟩

/-! ## Discovery timing lemmas -/

theorem firstStopTick_stops_aux (w : Nat) (dc : Nat → Nat) :
    ∀ n k, w ≤ tickMs * k + n → stopCond w dc (firstStopTick w dc k) = true := by
  intro n
  induction n with
  | zero =>
    intro k hk
    have hs : stopCond w dc k = true := by
      simp only [stopCond, Bool.or_eq_true, decide_eq_true_eq]
      exact Or.inr (by omega)
    rw [firstStopTick, if_pos hs]
    exact hs
  | succ n ih =>
    intro k hk
    by_cases hc : stopCond w dc k = true
    · rw [firstStopTick, if_pos hc]
      exact hc
    · rw [firstStopTick, if_neg hc]
      apply ih (k + 1)
      simp only [tickMs] at hk ⊢
      omega

theorem firstStopTick_stops (w : Nat) (dc : Nat → Nat) (k : Nat) :
    stopCond w dc (firstStopTick w dc k) = true :=
  firstStopTick_stops_aux w dc w k (by simp only [tickMs]; omega)

theorem firstStopTick_least_aux (w : Nat) (dc : Nat → Nat) :
    ∀ n k, w ≤ tickMs * k + n →
    ∀ j, k ≤ j → j < firstStopTick w dc k → stopCond w dc j = false := by
  intro n
  induction n with
  | zero =>
    intro k hk j hj1 hj2
    have hs : stopCond w dc k = true := by
      simp only [stopCond, Bool.or_eq_true, decide_eq_true_eq]
      exact Or.inr (by omega)
    rw [firstStopTick, if_pos hs] at hj2
    omega
  | succ n ih =>
    intro k hk j hj1 hj2
    by_cases hc : stopCond w dc k = true
    · rw [firstStopTick, if_pos hc] at hj2
      omega
    · rw [firstStopTick, if_neg hc] at hj2
      rcases Nat.eq_or_lt_of_le hj1 with heq | hlt
      · subst heq
        simpa using hc
      · apply ih (k + 1) (by simp only [tickMs] at hk ⊢; omega) j hlt hj2

theorem firstStopTick_least (w : Nat) (dc : Nat → Nat) (k : Nat) :
    ∀ j, k ≤ j → j < firstStopTick w dc k → stopCond w dc j = false :=
  firstStopTick_least_aux w dc w k (by simp only [tickMs]; omega)

/-- C7: the interval model resolves exactly at the first 25ms tick at
which a device has been collected or the elapsed time has reached the
window, whichever comes first: the stop condition holds at the resolve
tick and at no earlier tick; with zero replies the promise resolves with
the empty list no earlier than the window; and once a reply has been
collected by time t0 the promise resolves within one tick of t0, in
particular before the window when t0 plus one tick is below it. -/
theorem discovery_resolve_timing (w : Nat) (devicesAt : Nat → List DeviceInfo) :
    (stopCond w (devCountOf devicesAt) (firstStopTick w (devCountOf devicesAt) 1) = true ∧
      (∀ j, 1 ≤ j → j < firstStopTick w (devCountOf devicesAt) 1 →
        stopCond w (devCountOf devicesAt) j = false)) ∧
    ((∀ t, devicesAt t = []) →
      w ≤ resolveTimeMs w (devCountOf devicesAt) ∧ resolvedDevices w devicesAt = []) ∧
    (∀ t0, (∀ a b, a ≤ b → devCountOf devicesAt a ≤ devCountOf devicesAt b) →
      0 < devCountOf devicesAt t0 →
      resolveTimeMs w (devCountOf devicesAt) ≤ t0 + tickMs ∧
      (t0 + tickMs < w → resolveTimeMs w (devCountOf devicesAt) < w)) := by
  refine ⟨⟨firstStopTick_stops w (devCountOf devicesAt) 1,
      firstStopTick_least w (devCountOf devicesAt) 1⟩, ?_, ?_⟩
  · intro hz
    have hs := firstStopTick_stops w (devCountOf devicesAt) 1
    constructor
    · simp only [stopCond, Bool.or_eq_true, decide_eq_true_eq, devCountOf, hz,
        List.length_nil] at hs
      rcases hs with hs | hs
      · omega
      · simpa [resolveTimeMs] using hs
    · simp [resolvedDevices, hz]
  · intro t0 hmono hpos
    have hge1 : 1 ≤ (t0 + 25) / 25 := by omega
    have hlow : t0 ≤ tickMs * ((t0 + 25) / 25) := by
      simp only [tickMs]
      omega
    have hup : tickMs * ((t0 + 25) / 25) ≤ t0 + tickMs := by
      simp only [tickMs]
      omega
    have hstop : stopCond w (devCountOf devicesAt) ((t0 + 25) / 25) = true := by
      simp only [stopCond, Bool.or_eq_true, decide_eq_true_eq]
      exact Or.inl (Nat.lt_of_lt_of_le hpos (hmono t0 _ hlow))
    have hfle : firstStopTick w (devCountOf devicesAt) 1 ≤ (t0 + 25) / 25 := by
      by_contra hcon
      push_neg at hcon
      have hfalse := firstStopTick_least w (devCountOf devicesAt) 1 ((t0 + 25) / 25)
        hge1 hcon
      rw [hstop] at hfalse
      exact Bool.noConfusion hfalse
    have hle : resolveTimeMs w (devCountOf devicesAt) ≤ t0 + tickMs := by
      calc resolveTimeMs w (devCountOf devicesAt)
          = tickMs * firstStopTick w (devCountOf devicesAt) 1 := rfl
        _ ≤ tickMs * ((t0 + 25) / 25) := Nat.mul_le_mul_left tickMs hfle
        _ ≤ t0 + tickMs := hup
    exact ⟨hle, fun hw => Nat.lt_of_le_of_lt hle hw⟩

theorem discovery_resolve_timing_witness :
    (250 ≤ resolveTimeMs 250 (devCountOf (fun _ => ([] : List DeviceInfo))) ∧
      resolvedDevices 250 (fun _ => ([] : List DeviceInfo)) = []) ∧
    resolveTimeMs 250 (devCountOf (fun t => List.replicate (t / 10) devEx)) ≤ 10 + tickMs :=
  ⟨(discovery_resolve_timing 250 (fun _ => [])).2.1 (fun _ => rfl),
   ((discovery_resolve_timing 250 (fun t => List.replicate (t / 10) devEx)).2.2 10
      (fun a b hab => by
        simp only [devCountOf, List.length_replicate]
        exact Nat.div_le_div_right hab)
      (by decide)).1⟩
